import Mathlib

/-!
Shallow embedding of `list.go` from `treeforest/smartpagelist`: a paginated
list stored in a key-value state store. Go strings are modelled as `List Char`,
Go `int` as `Int` (no overflow is relevant to the verified properties), and Go
truncated integer division/remainder (`/`, `%`) as `Int.tdiv`/`Int.tmod`.
JSON byte payloads are modelled by the inductive `Bytes`: the source only ever
stores the canonical `json.Marshal` encoding of a metadata record or of a page
(a string slice), so one constructor per encodable shape plus `empty` (absent
key / zero-length value) and `garbage` (undecodable bytes) abstracts
`json.Marshal`/`json.Unmarshal` as used by the source; `json.Unmarshal` of
zero-length or mismatched bytes fails, and of a matching encoding succeeds.
-/

namespace SmartPageList

/-- Go strings, modelled as lists of characters. -/
abbrev Str := List Char

/-- Source `listMeta`: the per-list metadata record. -/
structure listMeta where
  lastPageNumber : Int
  totalCount : Int
deriving DecidableEq

/-- Byte values held by the state store, abstracting the JSON payloads the
source reads and writes. -/
inductive Bytes where
  | empty
  | metaEnc (m : listMeta)
  | pageEnc (vs : List Str)
  | garbage
deriving DecidableEq

/-- The state store (source `StateStore`): a total map from keys to bytes. An
absent key is `Bytes.empty`, matching the mock store's `GetState` returning
nil bytes and no error; `GetState`/`PutState` never fail in the repository's
store, so reads and writes are pure here. -/
def Store := Str → Bytes

/-- Source `StateStore.PutState` on the mock store. -/
def putState (s : Store) (k : Str) (v : Bytes) : Store :=
  fun k' => if k' = k then v else s k'

/-- A store in which nothing has ever been written. -/
def emptyStore : Store := fun _ => .empty

/-- Error values the source can produce: the two sentinel errors, the
argument-validation error of `GetPage`, the reachable `fmt.Errorf` failure
sites, the `DataInconsistency` error of the spec-modelled `Get`, and a family
of caller-supplied errors that a `Range` visitor may return. -/
inductive Err where
  | pageNotFound
  | indexOutOfRange
  | invalidPageNumber
  | unmarshalMetaFailed (key : Str)
  | unmarshalPageFailed (key : Str)
  | dataInconsistency
  | callerErr (n : Nat)
deriving DecidableEq

/-- Source `List` (renamed: `List` is taken by Lean). -/
structure PagedList where
  key : Str
  pageSize : Int
deriving DecidableEq

/-- Source `DefaultPageSize`. -/
def DefaultPageSize : Int := 10

/-- Source `NewList`: a nonpositive page size falls back to
`DefaultPageSize`. -/
def NewList (listKey : Str) (pageSize : Int) : PagedList :=
  if pageSize ≤ 0 then { key := listKey, pageSize := DefaultPageSize }
  else { key := listKey, pageSize := pageSize }

/-- Decimal digit to character, as in Go's `fmt.Sprintf("%d", _)`. -/
def digitChar : Nat → Char
  | 0 => '0' | 1 => '1' | 2 => '2' | 3 => '3' | 4 => '4'
  | 5 => '5' | 6 => '6' | 7 => '7' | 8 => '8' | 9 => '9'
  | _ => '?'

/-- Little-endian decimal digits, with explicit structural fuel so the kernel
can evaluate it; `natDigitsAux n fuel = Nat.digits 10 n` whenever
`n ≤ fuel`. -/
def natDigitsAux : Nat → Nat → List Nat
  | _, 0 => []
  | n, fuel + 1 => if n = 0 then [] else n % 10 :: natDigitsAux (n / 10) fuel

/-- Little-endian decimal digits of `n`. -/
def natDigitsLE (n : Nat) : List Nat := natDigitsAux n n

/-- Decimal representation, most significant digit first. -/
def natDecimal (n : Nat) : Str :=
  if n = 0 then ['0'] else (natDigitsLE n).reverse.map digitChar

/-- Go `fmt.Sprintf("%d", i)` for a (signed) `int`. -/
def intDecimal (i : Int) : Str :=
  if i < 0 then '-' :: natDecimal i.natAbs else natDecimal i.toNat

/-- Source `metaKey`: `fmt.Sprintf("%s_meta", l.key)`. -/
def metaKey (l : PagedList) : Str := l.key ++ ['_', 'm', 'e', 't', 'a']

/-- Source `buildPageKey`: `fmt.Sprintf("%s_page_%d", l.key, pageNumber)`. -/
def buildPageKey (l : PagedList) (pageNumber : Int) : Str :=
  l.key ++ ['_', 'p', 'a', 'g', 'e', '_'] ++ intDecimal pageNumber

/-- Source `getMeta`: read the metadata key; zero-length bytes decode to the
zero metadata; any other bytes must decode as a `listMeta`. -/
def getMeta (l : PagedList) (store : Store) : Except Err listMeta :=
  match store (metaKey l) with
  | .empty => .ok { lastPageNumber := 0, totalCount := 0 }
  | .metaEnc m => .ok m
  | _ => .error (.unmarshalMetaFailed (metaKey l))

/-- Source `PushBack`: append one value, rewriting the target page and then
the metadata. `saveMeta` is inlined; its `json.Marshal` and `PutState` never
fail in the embedding, matching the repository's store. A zero-length page
read leaves `values` nil (source checks `len(pageData) > 0` before
unmarshalling); non-page bytes fail to unmarshal. -/
def PushBack (l : PagedList) (store : Store) (value : Str) : Except Err Store :=
  match getMeta l store with
  | .error e => .error e
  | .ok meta =>
    let targetPage :=
      if Int.tmod meta.totalCount l.pageSize = 0 then meta.lastPageNumber + 1
      else meta.lastPageNumber
    let pageKey := buildPageKey l targetPage
    let finish : List Str → Except Err Store := fun values =>
      let values := values ++ [value]
      let store := putState store pageKey (.pageEnc values)
      .ok (putState store (metaKey l)
        (.metaEnc { lastPageNumber := targetPage, totalCount := meta.totalCount + 1 }))
    match store pageKey with
    | .empty => finish []
    | .pageEnc vs => finish vs
    | _ => .error (.unmarshalPageFailed pageKey)

/-- Source `GetPage`: validate the page number, load metadata, compare against
the last page number, then read and decode the page record. The decode of
zero-length bytes fails (the source unmarshals the raw bytes with no length
check here), so a missing page below `lastPageNumber` is an unmarshal
failure, not `ErrPageNotFound`. -/
def GetPage (l : PagedList) (store : Store) (pageNumber : Int) :
    Except Err (List Str) :=
  if pageNumber < 1 then .error .invalidPageNumber
  else
    match getMeta l store with
    | .error e => .error e
    | .ok meta =>
      if pageNumber > meta.lastPageNumber then .error .pageNotFound
      else
        match store (buildPageKey l pageNumber) with
        | .pageEnc vs => .ok vs
        | _ => .error (.unmarshalPageFailed (buildPageKey l pageNumber))

/-- Source `Length`: the stored total count. -/
def Length (l : PagedList) (store : Store) : Except Err Int :=
  match getMeta l store with
  | .error e => .error e
  | .ok meta => .ok meta.totalCount

/-- The stored last page number (zero if the metadata does not decode); this
is the bound behind `Range`'s termination: `GetPage` fails for any page
number above it. -/
def metaLastPage (l : PagedList) (store : Store) : Int :=
  match getMeta l store with
  | .ok m => m.lastPageNumber
  | .error _ => 0

/-- Inner loop of source `Range`: visit `values[i]`, `values[i+1]`, … while
`i < len(values) && index < end`, returning the first visitor error and the
index reached. Go's `i` is an `int` but is always nonnegative here (it starts
at `start % pageSize` with `start ≥ 0`, `pageSize ≥ 1`), so it is a `Nat`. -/
def innerLoop (fn : Int → Str → Option Err) (values : List Str) (endI : Int)
    (i : Nat) (index : Int) : Option Err × Int :=
  if h : i < values.length ∧ index < endI then
    match fn index (values.get ⟨i, h.1⟩) with
    | some e => (some e, index)
    | none => innerLoop fn values endI (i + 1) (index + 1)
  else (none, index)
termination_by values.length - i
decreasing_by omega

/-- Outer loop of source `Range`: starting from `currentPage`/`startPos`,
walk pages while `index < endI`, propagating the first error. It terminates
by the source's own argument: every iteration moves to the following page,
and `GetPage` fails as soon as the page number passes the stored last page
number, which ends the loop. -/
def rangeLoop (l : PagedList) (store : Store) (fn : Int → Str → Option Err)
    (endI : Int) (currentPage : Int) (startPos : Nat) (index : Int) :
    Option Err :=
  if index < endI then
    match h : GetPage l store currentPage with
    | .error e => some e
    | .ok values =>
      match innerLoop fn values endI startPos index with
      | (some e, _) => some e
      | (none, index') => rangeLoop l store fn endI (currentPage + 1) 0 index'
  else none
termination_by (metaLastPage l store + 1 - currentPage).toNat
decreasing_by
  simp only [GetPage] at h
  split at h
  · exact absurd h (by simp)
  · split at h
    · exact absurd h (by simp)
    · rename_i meta hmeta
      split at h
      · exact absurd h (by simp)
      · rename_i hle
        simp only [metaLastPage, hmeta]
        omega

/-- Source `Range`: load metadata, substitute `end == -1`, validate the
range, then walk pages. The visitor returns `some e` to stop early (Go: a
non-nil `error`). The initial in-page offset `start % pageSize` is
nonnegative (`start ≥ 0`, `pageSize ≥ 1`), so `.toNat` is exact. -/
def Range (l : PagedList) (store : Store) (start endIdx : Int)
    (fn : Int → Str → Option Err) : Option Err :=
  match getMeta l store with
  | .error e => some e
  | .ok meta =>
    let endV := if endIdx = -1 then meta.totalCount else endIdx
    if start < 0 ∨ endV > meta.totalCount ∨ start ≥ endV then
      some .indexOutOfRange
    else
      rangeLoop l store fn endV (Int.tdiv start l.pageSize + 1)
        (Int.tmod start l.pageSize).toNat start

/-- Modelled from the spec: the repository's `Get` method is exercised by
`list_test.go` but its definition is not among the provided sources. Spec
section 4.4 (`Get(index)`): requires `0 ≤ index < totalCount`, failing with
`IndexOutOfRange` otherwise; locates `(pageNumber, offset) =
(index / pageSize + 1, index % pageSize)` per section 4.2, loads that page
via `GetPage`, and requires `offset < length(page)`, failing with
`DataInconsistency` otherwise. -/
def Get (l : PagedList) (store : Store) (index : Int) : Except Err Str :=
  match getMeta l store with
  | .error e => .error e
  | .ok meta =>
    if index < 0 ∨ index ≥ meta.totalCount then .error .indexOutOfRange
    else
      match GetPage l store (Int.tdiv index l.pageSize + 1) with
      | .error e => .error e
      | .ok values =>
        if h : (Int.tmod index l.pageSize).toNat < values.length then
          .ok (values.get ⟨(Int.tmod index l.pageSize).toNat, h⟩)
        else .error .dataInconsistency

/-- Modelled from the spec: `GetLast` is exercised by `list_test.go` but
missing from the provided sources. Spec section 4.3: equivalent to
`Get(totalCount - 1)`; when `totalCount = 0` that index is `-1`, hence
`IndexOutOfRange`. -/
def GetLast (l : PagedList) (store : Store) : Except Err Str :=
  match getMeta l store with
  | .error e => .error e
  | .ok meta => Get l store (meta.totalCount - 1)

/-- Repeated `PushBack`, stopping at the first error. -/
def pushAll (l : PagedList) (store : Store) : List Str → Except Err Store
  | [] => .ok store
  | v :: vs =>
    match PushBack l store v with
    | .error e => .error e
    | .ok store' => pushAll l store' vs

/-- Ceiling division for naturals: the number of pages needed for `n`
elements with page size `p`. -/
def ceilLP (p n : Nat) : Nat := (n + p - 1) / p

/-- The contents page `pg` (1-based) must hold for logical sequence `xs`. -/
def pageSlice (p : Nat) (xs : List Str) (pg : Nat) : List Str :=
  (xs.drop ((pg - 1) * p)).take p

/-- Faithfulness of a store to a logical sequence `xs` for handle `l` with
page size `p`: metadata decodes to the invariant values, pages
`1..lastPageNumber` hold the corresponding slices of `xs`, and page keys
beyond the last page are unwritten. -/
def goodStore (l : PagedList) (p : Nat) (xs : List Str) (store : Store) :
    Prop :=
  getMeta l store =
    .ok { lastPageNumber := (ceilLP p xs.length : Int),
          totalCount := (xs.length : Int) } ∧
  (∀ pg : Nat, 1 ≤ pg → pg ≤ ceilLP p xs.length →
    store (buildPageKey l (pg : Int)) = .pageEnc (pageSlice p xs pg)) ∧
  (∀ pg : Nat, ceilLP p xs.length < pg →
    store (buildPageKey l (pg : Int)) = .empty)

/-- Sequential run of a visitor over an explicit list of (index, value)
pairs: stops at, and propagates unchanged, the first `some`. -/
def visitList (fn : Int → Str → Option Err) : List (Int × Str) → Option Err
  | [] => none
  | (i, v) :: rest =>
    match fn i v with
    | some e => some e
    | none => visitList fn rest

/-- The `n` pairs `(index, values[i]), (index+1, values[i+1]), …` (reading
past the end of `values` yields the empty string, which never happens at the
use sites). -/
def visitPairs (values : List Str) (i : Nat) (index : Int) :
    Nat → List (Int × Str)
  | 0 => []
  | n + 1 => (index, values.getD i []) :: visitPairs values (i + 1) (index + 1) n

/-! ### Decimal-representation lemmas -/

theorem natDigitsAux_eq : ∀ (fuel n : Nat), n ≤ fuel →
    natDigitsAux n fuel = Nat.digits 10 n
  | 0, n, h => by
    have hn : n = 0 := by omega
    simp [natDigitsAux, hn]
  | fuel + 1, n, h => by
    by_cases h0 : n = 0
    · simp [natDigitsAux, h0]
    · have hlt : n / 10 < n := Nat.div_lt_self (Nat.pos_of_ne_zero h0) (by norm_num)
      rw [show natDigitsAux n (fuel + 1)
            = if n = 0 then [] else n % 10 :: natDigitsAux (n / 10) fuel from rfl]
      rw [if_neg h0, natDigitsAux_eq fuel (n / 10) (by omega),
        Nat.digits_def' (by norm_num : (1:Nat) < 10) (Nat.pos_of_ne_zero h0)]

theorem natDigitsLE_eq (n : Nat) : natDigitsLE n = Nat.digits 10 n :=
  natDigitsAux_eq n n (Nat.le_refl n)

theorem digitChar_ne_underscore_ne_a (d : Nat) (h : d < 10) :
    digitChar d ≠ '_' ∧ digitChar d ≠ 'a' := by
  interval_cases d <;> exact ⟨by decide, by decide⟩

theorem digitChar_inj (d e : Nat) (hd : d < 10) (he : e < 10)
    (h : digitChar d = digitChar e) : d = e := by
  interval_cases d <;> interval_cases e <;> first | rfl | exact absurd h (by decide)

theorem mem_natDecimal (n : Nat) (c : Char) (hc : c ∈ natDecimal n) :
    ∃ d, d < 10 ∧ c = digitChar d := by
  unfold natDecimal at hc
  by_cases h0 : n = 0
  · simp [h0] at hc
    exact ⟨0, by norm_num, hc⟩
  · rw [if_neg h0, natDigitsLE_eq] at hc
    rcases List.mem_map.mp hc with ⟨d, hd, rfl⟩
    rw [List.mem_reverse] at hd
    exact ⟨d, Nat.digits_lt_base (by norm_num) hd, rfl⟩

theorem natDecimal_ne_nil (n : Nat) : natDecimal n ≠ [] := by
  unfold natDecimal
  by_cases h0 : n = 0
  · simp [h0]
  · rw [if_neg h0]
    simp [natDigitsLE_eq, Nat.digits_ne_nil_iff_ne_zero.mpr h0]

theorem underscore_not_mem_natDecimal (n : Nat) : '_' ∉ natDecimal n := by
  intro hc
  rcases mem_natDecimal n _ hc with ⟨d, hd, hEq⟩
  exact (digitChar_ne_underscore_ne_a d hd).1 hEq.symm

theorem map_digitChar_inj : ∀ (l₁ l₂ : List Nat), (∀ d ∈ l₁, d < 10) →
    (∀ d ∈ l₂, d < 10) → l₁.map digitChar = l₂.map digitChar → l₁ = l₂
  | [], [], _, _, _ => rfl
  | [], _ :: _, _, _, h => by simp at h
  | _ :: _, [], _, _, h => by simp at h
  | d₁ :: t₁, d₂ :: t₂, h₁, h₂, h => by
    simp only [List.map_cons, List.cons.injEq] at h
    have hd := digitChar_inj d₁ d₂ (h₁ d₁ (by simp)) (h₂ d₂ (by simp)) h.1
    have ht := map_digitChar_inj t₁ t₂ (fun d hd => h₁ d (by simp [hd]))
      (fun d hd => h₂ d (by simp [hd])) h.2
    rw [hd, ht]

theorem natDecimal_inj (m n : Nat) (hm : 1 ≤ m) (hn : 1 ≤ n)
    (h : natDecimal m = natDecimal n) : m = n := by
  unfold natDecimal at h
  rw [if_neg (by omega), if_neg (by omega), natDigitsLE_eq, natDigitsLE_eq] at h
  rw [List.map_reverse, List.map_reverse] at h
  have hmap := List.reverse_injective h
  have hdig : Nat.digits 10 m = Nat.digits 10 n :=
    map_digitChar_inj _ _ (fun d hd => Nat.digits_lt_base (by norm_num) hd)
      (fun d hd => Nat.digits_lt_base (by norm_num) hd) hmap
  have := congrArg (Nat.ofDigits 10) hdig
  rwa [Nat.ofDigits_digits, Nat.ofDigits_digits] at this

/-! ### Key-derivation lemmas -/

theorem append_underscore_inj : ∀ (a₁ a₂ b₁ b₂ : List Char), '_' ∉ a₁ →
    '_' ∉ a₂ → a₁ ++ '_' :: b₁ = a₂ ++ '_' :: b₂ → a₁ = a₂ ∧ b₁ = b₂
  | [], [], b₁, b₂, _, _, h => by simpa using h
  | [], c :: a₂, b₁, b₂, _, h₂, h => by
    simp only [List.nil_append, List.cons_append, List.cons.injEq] at h
    exact absurd (h.1 ▸ List.mem_cons_self c a₂) h₂
  | c :: a₁, [], b₁, b₂, h₁, _, h => by
    simp only [List.nil_append, List.cons_append, List.cons.injEq] at h
    exact absurd (h.1.symm ▸ List.mem_cons_self c a₁) h₁
  | c₁ :: a₁, c₂ :: a₂, b₁, b₂, h₁, h₂, h => by
    simp only [List.cons_append, List.cons.injEq] at h
    have := append_underscore_inj a₁ a₂ b₁ b₂
      (fun hm => h₁ (List.mem_cons_of_mem _ hm))
      (fun hm => h₂ (List.mem_cons_of_mem _ hm)) h.2
    exact ⟨by rw [h.1, this.1], this.2⟩

theorem intDecimal_pos (p : Int) (hp : 1 ≤ p) :
    intDecimal p = natDecimal p.toNat := by
  unfold intDecimal
  rw [if_neg (by omega)]

theorem buildPageKey_reverse (l : PagedList) (p : Int) :
    (buildPageKey l p).reverse =
      (intDecimal p).reverse ++ '_' :: (['e', 'g', 'a', 'p', '_'] ++ l.key.reverse) := by
  simp [buildPageKey, List.reverse_append]

theorem buildPageKey_inj (l₁ l₂ : PagedList) (m n : Int) (hm : 1 ≤ m)
    (hn : 1 ≤ n) (h : buildPageKey l₁ m = buildPageKey l₂ n) :
    l₁.key = l₂.key ∧ m = n := by
  have hrev := congrArg List.reverse h
  rw [buildPageKey_reverse, buildPageKey_reverse] at hrev
  have h₁ : '_' ∉ (intDecimal m).reverse := by
    rw [intDecimal_pos m hm, List.mem_reverse]
    exact underscore_not_mem_natDecimal _
  have h₂ : '_' ∉ (intDecimal n).reverse := by
    rw [intDecimal_pos n hn, List.mem_reverse]
    exact underscore_not_mem_natDecimal _
  rcases append_underscore_inj _ _ _ _ h₁ h₂ hrev with ⟨hd, hrest⟩
  constructor
  · have := List.append_cancel_left hrest
    exact List.reverse_injective this
  · rw [intDecimal_pos m hm, intDecimal_pos n hn] at hd
    have := natDecimal_inj m.toNat n.toNat (by omega) (by omega)
      (List.reverse_injective hd)
    omega

theorem metaKey_ne_buildPageKey (l₁ l₂ : PagedList) (n : Int) (hn : 1 ≤ n) :
    metaKey l₁ ≠ buildPageKey l₂ n := by
  intro h
  have hrev := congrArg List.reverse h
  rw [buildPageKey_reverse] at hrev
  have hmk : (metaKey l₁).reverse = 'a' :: (['t', 'e', 'm', '_'] ++ l₁.key.reverse) := by
    simp [metaKey, List.reverse_append]
  rw [hmk, intDecimal_pos n hn] at hrev
  rcases List.exists_cons_of_ne_nil
    (fun hnil => natDecimal_ne_nil n.toNat (List.reverse_eq_nil_iff.mp hnil)) with ⟨c, t, hct⟩
  rw [hct] at hrev
  simp only [List.cons_append, List.cons.injEq] at hrev
  have hcmem : c ∈ natDecimal n.toNat := by
    rw [← List.mem_reverse, hct]; exact List.mem_cons_self c t
  rcases mem_natDecimal _ _ hcmem with ⟨d, hd, rfl⟩
  exact (digitChar_ne_underscore_ne_a d hd).2 hrev.1.symm

/-! ### Arithmetic lemmas for the paging invariant -/

theorem tdiv_coe (a b : Nat) : Int.tdiv (a : Int) (b : Int) = ((a / b : Nat) : Int) := rfl

theorem tmod_coe (a b : Nat) : Int.tmod (a : Int) (b : Int) = ((a % b : Nat) : Int) := rfl

theorem pred_mul (a b : Nat) : (a - 1) * b = a * b - b := by
  rw [Nat.sub_mul, one_mul]

theorem ceilLP_zero (p : Nat) : ceilLP p 0 = 0 := by
  unfold ceilLP
  by_cases hp : p = 0
  · simp [hp]
  · exact Nat.div_eq_of_lt (by omega)

theorem ceilLP_eq (p n : Nat) (hp : 1 ≤ p) :
    ceilLP p n = if n % p = 0 then n / p else n / p + 1 := by
  have hdm : n / p * p + n % p = n := by
    rw [Nat.mul_comm]; exact Nat.div_add_mod n p
  have hmlt : n % p < p := Nat.mod_lt _ (by omega)
  rw [ceilLP]
  by_cases h0 : n % p = 0
  · rw [if_pos h0]
    have hsplit : n + p - 1 = (p - 1) + n / p * p := by omega
    rw [hsplit, Nat.add_mul_div_right _ _ (show 0 < p by omega),
      Nat.div_eq_of_lt (show p - 1 < p by omega), Nat.zero_add]
  · rw [if_neg h0]
    have hexp : (n / p + 1) * p = n / p * p + p := by rw [Nat.add_mul, one_mul]
    have hsplit : n + p - 1 = (n % p - 1) + (n / p + 1) * p := by omega
    rw [hsplit, Nat.add_mul_div_right _ _ (show 0 < p by omega),
      Nat.div_eq_of_lt (show n % p - 1 < p by omega), Nat.zero_add]

theorem ceilLP_add_one (p n : Nat) (hp : 1 ≤ p) :
    ceilLP p (n + 1) = n / p + 1 := by
  have hdm : n / p * p + n % p = n := by
    rw [Nat.mul_comm]; exact Nat.div_add_mod n p
  have hmlt : n % p < p := Nat.mod_lt _ (by omega)
  rw [ceilLP]
  have hexp : (n / p + 1) * p = n / p * p + p := by rw [Nat.add_mul, one_mul]
  have hsplit : n + 1 + p - 1 = n % p + (n / p + 1) * p := by omega
  rw [hsplit, Nat.add_mul_div_right _ _ (show 0 < p by omega),
    Nat.div_eq_of_lt hmlt, Nat.zero_add]

theorem ceilLP_succ (p n : Nat) (hp : 1 ≤ p) :
    ceilLP p (n + 1) = if n % p = 0 then ceilLP p n + 1 else ceilLP p n := by
  rw [ceilLP_add_one p n hp, ceilLP_eq p n hp]
  by_cases h0 : n % p = 0 <;> simp [h0]

theorem ceilLP_pos (p n : Nat) (hp : 1 ≤ p) (hn : 1 ≤ n) : 1 ≤ ceilLP p n := by
  obtain ⟨m, rfl⟩ : ∃ m, n = m + 1 := ⟨n - 1, by omega⟩
  rw [ceilLP_add_one p m hp]
  exact Nat.le_add_left 1 (m / p)

theorem le_ceilLP_mul (p n : Nat) (hp : 1 ≤ p) : n ≤ ceilLP p n * p := by
  have hdm : n / p * p + n % p = n := by
    rw [Nat.mul_comm]; exact Nat.div_add_mod n p
  have hmlt : n % p < p := Nat.mod_lt _ (by omega)
  rw [ceilLP_eq p n hp]
  by_cases h0 : n % p = 0
  · rw [if_pos h0]; omega
  · rw [if_neg h0]
    have hexp : (n / p + 1) * p = n / p * p + p := by rw [Nat.add_mul, one_mul]
    omega

theorem ceilLP_pred_mul_lt (p n : Nat) (hp : 1 ≤ p) (hn : 1 ≤ n) :
    (ceilLP p n - 1) * p < n := by
  have hdm : n / p * p + n % p = n := by
    rw [Nat.mul_comm]; exact Nat.div_add_mod n p
  have hmlt : n % p < p := Nat.mod_lt _ (by omega)
  rw [pred_mul, ceilLP_eq p n hp]
  by_cases h0 : n % p = 0
  · rw [if_pos h0]; omega
  · rw [if_neg h0]
    have hexp : (n / p + 1) * p = n / p * p + p := by rw [Nat.add_mul, one_mul]
    omega

theorem mod_zero_ceilLP_mul (p n : Nat) (hp : 1 ≤ p) (h0 : n % p = 0) :
    ceilLP p n * p = n := by
  have hdm : n / p * p + n % p = n := by
    rw [Nat.mul_comm]; exact Nat.div_add_mod n p
  rw [ceilLP_eq p n hp, if_pos h0]
  omega

theorem lt_ceilLP_mul_of_mod_ne (p n : Nat) (hp : 1 ≤ p) (h0 : n % p ≠ 0) :
    n < ceilLP p n * p := by
  rcases Nat.lt_or_ge n (ceilLP p n * p) with h | h
  · exact h
  · have hle := le_ceilLP_mul p n hp
    have heq : n = ceilLP p n * p := by omega
    have : n % p = 0 := by rw [heq, Nat.mul_mod_left]
    exact absurd this h0

/-! ### List-slice helpers -/

theorem take_append_of_le_len (P : Nat) (a b : List Str) (h : P ≤ a.length) :
    (a ++ b).take P = a.take P := by
  rw [List.take_append_eq_append_take, Nat.sub_eq_zero_of_le h, List.take_zero,
    List.append_nil]

theorem drop_append_of_le_len (k : Nat) (a b : List Str) (h : k ≤ a.length) :
    (a ++ b).drop k = a.drop k ++ b := by
  rw [List.drop_append_eq_append_drop, Nat.sub_eq_zero_of_le h, List.drop_zero]

theorem pageSlice_length (p : Nat) (xs : List Str) (pg : Nat) :
    (pageSlice p xs pg).length = min p (xs.length - (pg - 1) * p) := by
  simp [pageSlice]

theorem pageSlice_snoc_stable (p : Nat) (xs : List Str) (v : Str) (pg : Nat)
    (h1 : 1 ≤ pg) (hle : pg * p ≤ xs.length) :
    pageSlice p (xs ++ [v]) pg = pageSlice p xs pg := by
  unfold pageSlice
  have hpp : p ≤ pg * p := Nat.le_mul_of_pos_left p (by omega)
  have hk : (pg - 1) * p + p ≤ xs.length := by rw [pred_mul]; omega
  rw [drop_append_of_le_len _ _ _ (by omega),
    take_append_of_le_len _ _ _ (by simp; omega)]

theorem pageSlice_snoc_last (p : Nat) (xs : List Str) (v : Str) (pg : Nat)
    (hk : (pg - 1) * p ≤ xs.length) (hlt : xs.length - (pg - 1) * p < p) :
    pageSlice p (xs ++ [v]) pg = pageSlice p xs pg ++ [v] := by
  unfold pageSlice
  rw [drop_append_of_le_len _ _ _ hk,
    List.take_of_length_le (by simp; omega), List.take_of_length_le (by simp; omega)]

/-! ### Store-update helpers -/

theorem putState_same (s : Store) (k : Str) (b : Bytes) : putState s k b k = b := by
  unfold putState; rw [if_pos rfl]

theorem putState_ne (s : Store) (k k' : Str) (b : Bytes) (h : k' ≠ k) :
    putState s k b k' = s k' := by
  unfold putState; rw [if_neg h]

theorem getMeta_put_meta (l : PagedList) (s : Store) (m : listMeta) :
    getMeta l (putState s (metaKey l) (.metaEnc m)) = .ok m := by
  unfold getMeta
  rw [putState_same]

theorem getMeta_put_page (l : PagedList) (s : Store) (pg : Int) (hpg : 1 ≤ pg)
    (b : Bytes) : getMeta l (putState s (buildPageKey l pg) b) = getMeta l s := by
  unfold getMeta
  rw [putState_ne _ _ _ _ (metaKey_ne_buildPageKey l l pg hpg)]

/-! ### Preservation of the paging invariant -/

theorem goodStore_empty (l : PagedList) (p : Nat) : goodStore l p [] emptyStore := by
  refine ⟨?_, ?_, ?_⟩
  · simp [getMeta, emptyStore, metaKey, ceilLP_zero]
  · intro pg h1 h2
    rw [List.length_nil, ceilLP_zero] at h2
    omega
  · intro pg _
    rfl

theorem pushBack_good (l : PagedList) (p : Nat) (xs : List Str) (store : Store)
    (v : Str) (hp : 1 ≤ p) (hps : l.pageSize = (p : Int))
    (h : goodStore l p xs store) :
    ∃ store', PushBack l store v = .ok store' ∧
      goodStore l p (xs ++ [v]) store' := by
  obtain ⟨hmeta, hpages, hbeyond⟩ := h
  by_cases hmod : xs.length % p = 0
  · -- the current last page is full (or the list is empty): a new page starts
    have hLcast : ((ceilLP p xs.length : Nat) : Int) + 1
        = ((ceilLP p xs.length + 1 : Nat) : Int) := by push_cast; ring
    have hread : store (buildPageKey l ((ceilLP p xs.length : Nat) + 1 : Int)) = .empty := by
      have := hbeyond (ceilLP p xs.length + 1) (by omega)
      rwa [← hLcast] at this
    have hstep : PushBack l store v = .ok (putState
        (putState store (buildPageKey l ((ceilLP p xs.length : Nat) + 1 : Int))
          (.pageEnc [v]))
        (metaKey l)
        (.metaEnc { lastPageNumber := ((ceilLP p xs.length : Nat) : Int) + 1,
                    totalCount := (xs.length : Int) + 1 })) := by
      simp only [PushBack, hmeta, hps, tmod_coe, Nat.cast_eq_zero]
      rw [if_pos hmod, hread]
      rfl
    refine ⟨_, hstep, ?_, ?_, ?_⟩
    · rw [getMeta_put_meta]
      have hsucc := ceilLP_succ p xs.length hp
      rw [if_pos hmod] at hsucc
      simp only [List.length_append, List.length_cons, List.length_nil, hsucc]
      push_cast
      ring_nf
    · intro pg h1 h2
      have hlen : (xs ++ [v]).length = xs.length + 1 := by simp
      have hsucc := ceilLP_succ p xs.length hp
      rw [if_pos hmod] at hsucc
      rw [hlen, hsucc] at h2
      rw [putState_ne _ _ _ _
        (fun hEq => metaKey_ne_buildPageKey l l (pg : Int) (by omega) hEq.symm)]
      by_cases hpg : pg = ceilLP p xs.length + 1
      · subst hpg
        rw [← hLcast, putState_same]
        have hmul : ceilLP p xs.length * p = xs.length :=
          mod_zero_ceilLP_mul p xs.length hp hmod
        unfold pageSlice
        rw [Nat.add_sub_cancel, hmul, List.drop_left,
          List.take_of_length_le (by simp; omega)]
      · have hne : buildPageKey l (pg : Int)
            ≠ buildPageKey l ((ceilLP p xs.length : Nat) + 1 : Int) := by
          intro hEq
          rcases buildPageKey_inj l l _ _ (by omega) (by omega) hEq with ⟨-, hval⟩
          omega
        rw [putState_ne _ _ _ _ hne, hpages pg h1 (by omega),
          pageSlice_snoc_stable p xs v pg h1 ?_]
        have hmul : ceilLP p xs.length * p = xs.length :=
          mod_zero_ceilLP_mul p xs.length hp hmod
        calc pg * p ≤ ceilLP p xs.length * p :=
              Nat.mul_le_mul_right p (by omega)
          _ = xs.length := hmul
    · intro pg h2
      have hlen : (xs ++ [v]).length = xs.length + 1 := by simp
      have hsucc := ceilLP_succ p xs.length hp
      rw [if_pos hmod] at hsucc
      rw [hlen, hsucc] at h2
      rw [putState_ne _ _ _ _
        (fun hEq => metaKey_ne_buildPageKey l l (pg : Int) (by omega) hEq.symm)]
      have hne : buildPageKey l (pg : Int)
          ≠ buildPageKey l ((ceilLP p xs.length : Nat) + 1 : Int) := by
        intro hEq
        rcases buildPageKey_inj l l _ _ (by omega) (by omega) hEq with ⟨-, hval⟩
        omega
      rw [putState_ne _ _ _ _ hne]
      exact hbeyond pg (by omega)
  · -- the current last page has room: append onto it
    have hn1 : 1 ≤ xs.length := by
      rcases Nat.eq_zero_or_pos xs.length with h0 | h0
      · rw [h0, Nat.zero_mod] at hmod; omega
      · omega
    have hL1 : 1 ≤ ceilLP p xs.length := ceilLP_pos p xs.length hp hn1
    have hread : store (buildPageKey l ((ceilLP p xs.length : Nat) : Int))
        = .pageEnc (pageSlice p xs (ceilLP p xs.length)) :=
      hpages _ hL1 (Nat.le_refl _)
    have hstep : PushBack l store v = .ok (putState
        (putState store (buildPageKey l ((ceilLP p xs.length : Nat) : Int))
          (.pageEnc (pageSlice p xs (ceilLP p xs.length) ++ [v])))
        (metaKey l)
        (.metaEnc { lastPageNumber := ((ceilLP p xs.length : Nat) : Int),
                    totalCount := (xs.length : Int) + 1 })) := by
      simp only [PushBack, hmeta, hps, tmod_coe, Nat.cast_eq_zero]
      rw [if_neg hmod, hread]
    refine ⟨_, hstep, ?_, ?_, ?_⟩
    · rw [getMeta_put_meta]
      have hsucc := ceilLP_succ p xs.length hp
      rw [if_neg hmod] at hsucc
      simp only [List.length_append, List.length_cons, List.length_nil, hsucc]
      push_cast
      ring_nf
    · intro pg h1 h2
      have hlen : (xs ++ [v]).length = xs.length + 1 := by simp
      have hsucc := ceilLP_succ p xs.length hp
      rw [if_neg hmod] at hsucc
      rw [hlen, hsucc] at h2
      rw [putState_ne _ _ _ _
        (fun hEq => metaKey_ne_buildPageKey l l (pg : Int) (by omega) hEq.symm)]
      by_cases hpg : pg = ceilLP p xs.length
      · subst hpg
        rw [putState_same]
        have hklt : (ceilLP p xs.length - 1) * p < xs.length :=
          ceilLP_pred_mul_lt p xs.length hp hn1
        have hmul : xs.length < ceilLP p xs.length * p :=
          lt_ceilLP_mul_of_mod_ne p xs.length hp hmod
        have hpm := pred_mul (ceilLP p xs.length) p
        have hpp : p ≤ ceilLP p xs.length * p :=
          Nat.le_mul_of_pos_left p (by omega)
        rw [pageSlice_snoc_last p xs v _ (by omega) (by omega)]
      · have hne : buildPageKey l (pg : Int)
            ≠ buildPageKey l ((ceilLP p xs.length : Nat) : Int) := by
          intro hEq
          rcases buildPageKey_inj l l _ _ (by omega) (by omega) hEq with ⟨-, hval⟩
          omega
        rw [putState_ne _ _ _ _ hne, hpages pg h1 (by omega),
          pageSlice_snoc_stable p xs v pg h1 ?_]
        have hklt : (ceilLP p xs.length - 1) * p < xs.length :=
          ceilLP_pred_mul_lt p xs.length hp hn1
        have hmono : pg * p ≤ (ceilLP p xs.length - 1) * p :=
          Nat.mul_le_mul_right p (by omega)
        omega
    · intro pg h2
      have hlen : (xs ++ [v]).length = xs.length + 1 := by simp
      have hsucc := ceilLP_succ p xs.length hp
      rw [if_neg hmod] at hsucc
      rw [hlen, hsucc] at h2
      rw [putState_ne _ _ _ _
        (fun hEq => metaKey_ne_buildPageKey l l (pg : Int) (by omega) hEq.symm)]
      have hne : buildPageKey l (pg : Int)
          ≠ buildPageKey l ((ceilLP p xs.length : Nat) : Int) := by
        intro hEq
        rcases buildPageKey_inj l l _ _ (by omega) (by omega) hEq with ⟨-, hval⟩
        omega
      rw [putState_ne _ _ _ _ hne]
      exact hbeyond pg (by omega)

theorem pushAll_good (l : PagedList) (p : Nat) (hp : 1 ≤ p)
    (hps : l.pageSize = (p : Int)) :
    ∀ (ys xs : List Str) (store : Store), goodStore l p xs store →
    ∃ store', pushAll l store ys = .ok store' ∧ goodStore l p (xs ++ ys) store'
  | [], xs, store, h => ⟨store, rfl, by simpa using h⟩
  | y :: ys, xs, store, h => by
    obtain ⟨store1, hstep, hgood1⟩ := pushBack_good l p xs store y hp hps h
    obtain ⟨store2, hrest, hgood2⟩ :=
      pushAll_good l p hp hps ys (xs ++ [y]) store1 hgood1
    refine ⟨store2, ?_, ?_⟩
    · unfold pushAll
      rw [hstep]
      exact hrest
    · rw [List.append_assoc] at hgood2
      simpa using hgood2

theorem getPage_good (l : PagedList) (p : Nat) (xs : List Str) (store : Store)
    (h : goodStore l p xs store) (pg : Nat) (h1 : 1 ≤ pg)
    (h2 : pg ≤ ceilLP p xs.length) :
    GetPage l store (pg : Int) = .ok (pageSlice p xs pg) := by
  obtain ⟨hmeta, hpages, -⟩ := h
  unfold GetPage
  rw [if_neg (by omega : ¬((pg : Int) < 1))]
  simp only [hmeta]
  rw [if_neg (by omega : ¬((pg : Int) > ((ceilLP p xs.length : Nat) : Int)))]
  simp only [hpages pg h1 h2]

/-! ### Visit-trace lemmas -/

theorem visitList_append_none (fn : Int → Str → Option Err) :
    ∀ (A B : List (Int × Str)), visitList fn A = none →
    visitList fn (A ++ B) = visitList fn B
  | [], _, _ => rfl
  | (i, v) :: A, B, h => by
    simp only [visitList] at h
    cases hfn : fn i v with
    | some e => simp [hfn] at h
    | none =>
      simp only [hfn] at h
      simp only [List.cons_append, visitList, hfn]
      exact visitList_append_none fn A B h

theorem visitList_append_some (fn : Int → Str → Option Err) (e : Err) :
    ∀ (A B : List (Int × Str)), visitList fn A = some e →
    visitList fn (A ++ B) = some e
  | [], _, h => by exact absurd h (by simp [visitList])
  | (i, v) :: A, B, h => by
    simp only [visitList] at h
    cases hfn : fn i v with
    | some e' =>
      simp only [hfn] at h
      simp only [List.cons_append, visitList, hfn]
      exact h
    | none =>
      simp only [hfn] at h
      simp only [List.cons_append, visitList, hfn]
      exact visitList_append_some fn e A B h

theorem visitPairs_append (values : List Str) :
    ∀ (n m : Nat) (i : Nat) (index : Int),
    visitPairs values i index (n + m)
      = visitPairs values i index n ++ visitPairs values (i + n) (index + n) m
  | 0, m, i, index => by simp [visitPairs]
  | n + 1, m, i, index => by
    have ih := visitPairs_append values n m (i + 1) (index + 1)
    have hn : n + 1 + m = (n + m) + 1 := by omega
    have h1 : i + 1 + n = i + (n + 1) := by omega
    have h2 : index + 1 + (n : Int) = index + ((n + 1 : Nat) : Int) := by
      push_cast; ring
    rw [hn]
    simp only [visitPairs]
    rw [List.cons_append]
    congr 1
    rw [ih, h1, h2]

theorem visitPairs_congr (v₁ v₂ : List Str) :
    ∀ (n : Nat) (i₁ i₂ : Nat) (index : Int),
    (∀ j, j < n → v₁.getD (i₁ + j) [] = v₂.getD (i₂ + j) []) →
    visitPairs v₁ i₁ index n = visitPairs v₂ i₂ index n
  | 0, _, _, _, _ => rfl
  | n + 1, i₁, i₂, index, h => by
    unfold visitPairs
    rw [show v₁.getD i₁ [] = v₂.getD i₂ [] from by simpa using h 0 (by omega),
      visitPairs_congr v₁ v₂ n (i₁ + 1) (i₂ + 1) (index + 1)
        (fun j hj => by
          have := h (j + 1) (by omega)
          simpa [Nat.add_assoc, Nat.add_comm 1 j] using this)]

theorem getD_take (l : List Str) (m i : Nat) (d : Str) (h : i < m) :
    (l.take m).getD i d = l.getD i d := by
  simp [List.getD, List.getElem?_take, h]

theorem getD_drop (l : List Str) (k i : Nat) (d : Str) :
    (l.drop k).getD i d = l.getD (k + i) d := by
  simp [List.getD, List.getElem?_drop]

theorem ceilLP_eq_pred_div (p n : Nat) (hp : 1 ≤ p) (hn : 1 ≤ n) :
    ceilLP p n = (n - 1) / p + 1 := by
  obtain ⟨m, rfl⟩ : ∃ m, n = m + 1 := ⟨n - 1, by omega⟩
  rw [ceilLP_add_one p m hp]
  simp

theorem innerLoop_spec (fn : Int → Str → Option Err) (values : List Str)
    (endI : Int) :
    ∀ (k i : Nat) (index : Int), values.length - i ≤ k →
    (innerLoop fn values endI i index).1
        = visitList fn (visitPairs values i index
            (min (values.length - i) (endI - index).toNat)) ∧
    (visitList fn (visitPairs values i index
        (min (values.length - i) (endI - index).toNat)) = none →
      innerLoop fn values endI i index
        = (none, index + ((min (values.length - i) (endI - index).toNat : Nat) : Int))) := by
  intro k
  induction k with
  | zero =>
    intro i index hk
    have hge : ¬(i < values.length ∧ index < endI) := by omega
    rw [innerLoop, dif_neg hge]
    have h0 : min (values.length - i) (endI - index).toNat = 0 := by omega
    rw [h0]
    exact ⟨rfl, fun _ => by simp⟩
  | succ k ih =>
    intro i index hk
    by_cases h : i < values.length ∧ index < endI
    · rw [innerLoop, dif_pos h]
      have hmin : min (values.length - i) (endI - index).toNat
          = min (values.length - (i + 1)) (endI - (index + 1)).toNat + 1 := by
        omega
      rw [hmin]
      simp only [visitPairs, visitList]
      have hget : values.getD i [] = values.get ⟨i, h.1⟩ := by
        rw [List.get_eq_getElem, List.getD_eq_getElem values [] h.1]
      rw [hget]
      cases hfn : fn index (values.get ⟨i, h.1⟩) with
      | some e => simp [hfn]
      | none =>
        simp only [hfn]
        have ihs := ih (i + 1) (index + 1) (by omega)
        refine ⟨ihs.1, fun hnone => ?_⟩
        rw [ihs.2 hnone]
        have hc : (index + 1)
              + ((min (values.length - (i + 1)) (endI - (index + 1)).toNat : Nat) : Int)
            = index
              + ((min (values.length - (i + 1)) (endI - (index + 1)).toNat + 1 : Nat) : Int) := by
          push_cast; ring
        rw [hc]
    · rw [innerLoop, dif_neg h]
      have h0 : min (values.length - i) (endI - index).toNat = 0 := by omega
      rw [h0]
      exact ⟨rfl, fun _ => by simp⟩

theorem rangeLoop_spec (l : PagedList) (p : Nat) (xs : List Str) (store : Store)
    (hp : 1 ≤ p) (hps : l.pageSize = (p : Int)) (hgood : goodStore l p xs store)
    (fn : Int → Str → Option Err) (endI : Int)
    (hend : endI ≤ (xs.length : Int)) :
    ∀ (k : Nat) (index : Int), 0 ≤ index → (endI - index).toNat ≤ k →
    rangeLoop l store fn endI (Int.tdiv index (p : Int) + 1)
        (Int.tmod index (p : Int)).toNat index
      = visitList fn (visitPairs xs index.toNat index (endI - index).toNat) := by
  intro k
  induction k with
  | zero =>
    intro index hidx hk
    have hlt : ¬(index < endI) := by omega
    rw [rangeLoop, if_neg hlt]
    have h0 : (endI - index).toNat = 0 := by omega
    rw [h0]
    rfl
  | succ k ih =>
    intro index hidx hk
    by_cases hlt : index < endI
    case neg =>
      rw [rangeLoop, if_neg hlt]
      have h0 : (endI - index).toNat = 0 := by omega
      rw [h0]
      rfl
    case pos =>
      have hin : index.toNat < xs.length := by omega
      have hn1len : 1 ≤ xs.length := by omega
      set a := index.toNat with ha
      have hacast : index = (a : Int) := by omega
      have hdivcast : Int.tdiv index (p : Int) + 1 = ((a / p + 1 : Nat) : Int) := by
        rw [hacast, tdiv_coe]; push_cast; ring
      have hmodcast : (Int.tmod index (p : Int)).toNat = a % p := by
        rw [hacast, tmod_coe]; omega
      have hpgle : a / p + 1 ≤ ceilLP p xs.length := by
        rw [ceilLP_eq_pred_div p xs.length hp hn1len]
        have hmono : a / p ≤ (xs.length - 1) / p :=
          Nat.div_le_div_right (by omega)
        omega
      have hpage := getPage_good l p xs store hgood (a / p + 1)
        (Nat.le_add_left 1 (a / p)) hpgle
      rw [hdivcast, hmodcast, rangeLoop, if_pos hlt]
      split
      · rename_i e heq
        rw [hpage] at heq
        exact absurd heq (by simp)
      · rename_i values heq
        rw [hpage] at heq
        injection heq with hval
        subst hval
        set slice := pageSlice p xs (a / p + 1) with hslice
        set s := a % p with hs
        set T := (endI - index).toNat with hT
        set n1 := min (slice.length - s) T with hn1
        have hdm : a / p * p + s = a := by
          rw [hs, Nat.mul_comm]; exact Nat.div_add_mod a p
        have hslen : slice.length = min p (xs.length - a / p * p) := by
          rw [hslice, pageSlice_length, Nat.add_sub_cancel]
        have hslt : s < p := Nat.mod_lt _ (by omega)
        have hsltlen : s < slice.length := by omega
        have hinner := innerLoop_spec fn slice endI slice.length s index (by omega)
        have hcong : visitPairs slice s index n1 = visitPairs xs a index n1 := by
          apply visitPairs_congr
          intro j hj
          have hsj : s + j < slice.length := by omega
          have hsjp : s + j < p := by omega
          rw [hslice]
          unfold pageSlice
          rw [Nat.add_sub_cancel, getD_take _ _ _ _ hsjp, getD_drop]
          congr 1
          omega
        rcases hres : innerLoop fn slice endI s index with ⟨fst, snd⟩
        rw [← hT] at hinner
        rw [← hn1] at hinner
        rw [hres] at hinner
        cases fst with
        | some e =>
          have hsome : visitList fn (visitPairs slice s index n1) = some e := by
            have := hinner.1
            exact this.symm
          have hsplitT := visitPairs_append xs n1 (T - n1) a index
          rw [show n1 + (T - n1) = T from by omega] at hsplitT
          have hfull : visitList fn (visitPairs xs a index T) = some e := by
            rw [hsplitT]
            exact visitList_append_some fn e _ _ (by rw [← hcong]; exact hsome)
          exact hfull.symm
        | none =>
          have hvnone : visitList fn (visitPairs slice s index n1) = none := by
            have := hinner.1
            exact this.symm
          have hsnd : snd = index + ((n1 : Nat) : Int) := by
            have hpair := hinner.2 hvnone
            injection hpair with h1 h2
          by_cases hfin : index + ((n1 : Nat) : Int) < endI
          case neg =>
            have hnT : n1 = T := by omega
            show rangeLoop l store fn endI (((a / p + 1 : Nat) : Int) + 1) 0 snd
                = visitList fn (visitPairs xs a index T)
            rw [hsnd, rangeLoop, if_neg hfin, ← hnT, ← hcong, hvnone]
          case pos =>
            have hn1T : n1 < T := by omega
            have hn1eq : n1 = slice.length - s := by omega
            have hslep : slice.length = p := by omega
            have hexp : (a / p + 1) * p = a / p * p + p := by
              rw [Nat.add_mul, one_mul]
            have hi2 : a + n1 = (a / p + 1) * p := by omega
            have hidx' : index + ((n1 : Nat) : Int) = (((a / p + 1) * p : Nat) : Int) := by
              omega
            have hdiv' : Int.tdiv (index + ((n1 : Nat) : Int)) (p : Int) + 1
                = ((a / p + 1 : Nat) : Int) + 1 := by
              rw [hidx', tdiv_coe, Nat.mul_div_cancel _ (show 0 < p by omega)]
            have hmod' : (Int.tmod (index + ((n1 : Nat) : Int)) (p : Int)).toNat = 0 := by
              rw [hidx', tmod_coe]
              simp [Nat.mul_mod_left]
            have hihx := ih (index + ((n1 : Nat) : Int)) (by omega) (by omega)
            rw [hdiv', hmod'] at hihx
            show rangeLoop l store fn endI (((a / p + 1 : Nat) : Int) + 1) 0 snd
                = visitList fn (visitPairs xs a index T)
            rw [hsnd, hihx]
            have hA : (index + ((n1 : Nat) : Int)).toNat = a + n1 := by omega
            have hB : (endI - (index + ((n1 : Nat) : Int))).toNat = T - n1 := by omega
            rw [hA, hB]
            have hsplitT := visitPairs_append xs n1 (T - n1) a index
            rw [show n1 + (T - n1) = T from by omega] at hsplitT
            rw [hsplitT]
            exact (visitList_append_none fn (visitPairs xs a index n1)
              (visitPairs xs (a + n1) (index + ((n1 : Nat) : Int)) (T - n1))
              (by rw [← hcong]; exact hvnone)).symm

theorem page_of_index_le (p n i : Nat) (hp : 1 ≤ p) (hi : i < n) :
    i / p + 1 ≤ ceilLP p n := by
  rw [ceilLP_eq_pred_div p n hp (by omega)]
  have hmono : i / p ≤ (n - 1) / p := Nat.div_le_div_right (by omega)
  omega

theorem Range_good (l : PagedList) (p : Nat) (xs : List Str) (store : Store)
    (hp : 1 ≤ p) (hps : l.pageSize = (p : Int)) (hgood : goodStore l p xs store)
    (a b : Nat) (hab : a < b) (hble : b ≤ xs.length)
    (fn : Int → Str → Option Err) :
    Range l store (a : Int) (b : Int) fn
      = visitList fn (visitPairs xs a (a : Int) (b - a)) := by
  unfold Range
  simp only [hgood.1]
  rw [if_neg (by omega : ¬((b : Int) = -1)),
    if_neg (by push_neg; omega :
      ¬((a : Int) < 0 ∨ (b : Int) > ((xs.length : Nat) : Int) ∨ (a : Int) ≥ (b : Int))),
    hps]
  have hspec := rangeLoop_spec l p xs store hp hps hgood fn (b : Int)
    (by omega) ((b : Int) - (a : Int)).toNat (a : Int) (by omega) (Nat.le_refl _)
  rw [hspec, show ((a : Int)).toNat = a from by omega,
    show ((b : Int) - (a : Int)).toNat = b - a from by omega]

theorem visitPairs_eq_map (values : List Str) :
    ∀ (n i : Nat) (index : Int), visitPairs values i index n
      = (List.range n).map (fun (j : Nat) => (index + (j : Int), values.getD (i + j) []))
  | 0, i, index => by simp [visitPairs]
  | n + 1, i, index => by
    rw [visitPairs, visitPairs_eq_map values n (i + 1) (index + 1),
      List.range_succ_eq_map, List.map_cons, List.map_map]
    congr 1
    · simp
    · apply List.map_congr_left
      intro j hj
      simp only [Function.comp_apply, Prod.mk.injEq]
      constructor
      · push_cast; ring
      · congr 1; omega

theorem visitList_visitPairs_none (fn : Int → Str → Option Err)
    (values : List Str) :
    ∀ (n i : Nat) (index : Int),
    (∀ j : Nat, j < n → fn (index + (j : Int)) (values.getD (i + j) []) = none) →
    visitList fn (visitPairs values i index n) = none
  | 0, i, index, _ => rfl
  | n + 1, i, index, h => by
    have h0 := h 0 (by omega)
    simp only [Nat.cast_zero, add_zero, Nat.add_zero] at h0
    rw [visitPairs]
    simp only [visitList, h0]
    exact visitList_visitPairs_none fn values n (i + 1) (index + 1)
      (fun j hj => by
        have := h (j + 1) (by omega)
        rw [show i + (j + 1) = i + 1 + j from by omega,
          show index + ((j + 1 : Nat) : Int) = index + 1 + (j : Int) from by
            push_cast; ring] at this
        exact this)

theorem visitList_visitPairs_stop (fn : Int → Str → Option Err)
    (values : List Str) (e : Err) :
    ∀ (kk n i : Nat) (index : Int), kk < n →
    (∀ j : Nat, j < kk → fn (index + (j : Int)) (values.getD (i + j) []) = none) →
    fn (index + (kk : Int)) (values.getD (i + kk) []) = some e →
    visitList fn (visitPairs values i index n) = some e
  | 0, n, i, index, hkk, _, hstop => by
    obtain ⟨m, rfl⟩ : ∃ m, n = m + 1 := ⟨n - 1, by omega⟩
    simp only [Nat.cast_zero, add_zero, Nat.add_zero] at hstop
    rw [visitPairs]
    simp only [visitList, hstop]
  | kk + 1, n, i, index, hkk, hbefore, hstop => by
    obtain ⟨m, rfl⟩ : ∃ m, n = m + 1 := ⟨n - 1, by omega⟩
    have h0 := hbefore 0 (by omega)
    simp only [Nat.cast_zero, add_zero, Nat.add_zero] at h0
    rw [visitPairs]
    simp only [visitList, h0]
    exact visitList_visitPairs_stop fn values e kk m (i + 1) (index + 1)
      (by omega)
      (fun j hj => by
        have := hbefore (j + 1) (by omega)
        rw [show i + (j + 1) = i + 1 + j from by omega,
          show index + ((j + 1 : Nat) : Int) = index + 1 + (j : Int) from by
            push_cast; ring] at this
        exact this)
      (by
        rw [show i + 1 + kk = i + (kk + 1) from by omega,
          show index + 1 + (kk : Int) = index + ((kk + 1 : Nat) : Int) from by
            push_cast; ring]
        exact hstop)

theorem NewList_pos (listKey : Str) (P : Nat) (hP : 1 ≤ P) :
    NewList listKey (P : Int) = { key := listKey, pageSize := (P : Int) } := by
  unfold NewList
  rw [if_neg (by omega)]

theorem Range_full (l : PagedList) (p : Nat) (xs : List Str) (store : Store)
    (hp : 1 ≤ p) (hps : l.pageSize = (p : Int)) (hgood : goodStore l p xs store)
    (hn : 1 ≤ xs.length) (fn : Int → Str → Option Err) :
    Range l store 0 (-1) fn
      = visitList fn (visitPairs xs 0 0 xs.length) := by
  unfold Range
  simp only [hgood.1]
  simp only [if_true]
  rw [if_neg (by push_neg; omega :
      ¬((0 : Int) < 0 ∨ ((xs.length : Nat) : Int) > ((xs.length : Nat) : Int)
        ∨ (0 : Int) ≥ ((xs.length : Nat) : Int))),
    hps]
  have hspec := rangeLoop_spec l p xs store hp hps hgood fn ((xs.length : Nat) : Int)
    (by omega) (((xs.length : Nat) : Int) - 0).toNat 0 (by omega) (Nat.le_refl _)
  rw [hspec, show ((0 : Int)).toNat = 0 from rfl,
    show (((xs.length : Nat) : Int) - 0).toNat = xs.length from by omega]

theorem Get_good_ok (l : PagedList) (p : Nat) (xs : List Str) (store : Store)
    (hp : 1 ≤ p) (hps : l.pageSize = (p : Int)) (hgood : goodStore l p xs store)
    (i : Nat) (hi : i < xs.length) :
    Get l store (i : Int) = .ok (xs.getD i []) := by
  unfold Get
  simp only [hgood.1]
  rw [if_neg (by push_neg; omega :
    ¬((i : Int) < 0 ∨ (i : Int) ≥ ((xs.length : Nat) : Int)))]
  have hpg : Int.tdiv (i : Int) (p : Int) + 1 = ((i / p + 1 : Nat) : Int) := by
    rw [tdiv_coe]; push_cast; ring
  rw [hps, hpg]
  simp only [getPage_good l p xs store hgood (i / p + 1) (Nat.le_add_left 1 _)
    (page_of_index_le p xs.length i hp hi)]
  have hoff : (Int.tmod (i : Int) (p : Int)).toNat = i % p := by
    rw [tmod_coe]; omega
  rw [hoff]
  have hdm : i / p * p + i % p = i := by
    rw [Nat.mul_comm]; exact Nat.div_add_mod i p
  have hlen : (pageSlice p xs (i / p + 1)).length
      = min p (xs.length - i / p * p) := by
    rw [pageSlice_length, Nat.add_sub_cancel]
  have hmlt : i % p < p := Nat.mod_lt _ (by omega)
  have hofflt : i % p < (pageSlice p xs (i / p + 1)).length := by omega
  rw [dif_pos hofflt]
  have hconv : (pageSlice p xs (i / p + 1)).get ⟨i % p, hofflt⟩
      = (pageSlice p xs (i / p + 1)).getD (i % p) [] := by
    rw [List.get_eq_getElem, List.getD_eq_getElem _ _ hofflt]
  rw [hconv]
  unfold pageSlice
  rw [Nat.add_sub_cancel, getD_take _ _ _ _ hmlt, getD_drop, hdm]

theorem Get_oob (l : PagedList) (store : Store) (meta : listMeta)
    (hmeta : getMeta l store = .ok meta) (i : Int)
    (hi : i < 0 ∨ i ≥ meta.totalCount) :
    Get l store i = .error .indexOutOfRange := by
  unfold Get
  simp only [hmeta]
  rw [if_pos hi]

theorem GetLast_eq_get (l : PagedList) (store : Store) (meta : listMeta)
    (hmeta : getMeta l store = .ok meta) :
    GetLast l store = Get l store (meta.totalCount - 1) := by
  unfold GetLast
  simp only [hmeta]

/-! ### Claim theorems -/

/-- C1: for every page size `P ≥ 1` and every sequence of `N` values, after
`N` successful `PushBack` calls on an initially empty list, `Length` returns
`N`, the metadata satisfies `lastPageNumber = ⌈N / P⌉` (`ceilLP P N`, which is
`0` when `N = 0`) and `totalCount = N`, `GetPage pg` returns exactly `P`
elements for every `1 ≤ pg < lastPageNumber`, and `GetPage lastPageNumber`
returns exactly `N - (lastPageNumber - 1) * P` elements; every `PushBack`
preserves this central invariant (`pushAll` is the iterated `PushBack`, and
all pushes succeed). -/
theorem C1_push_invariant (listKey : Str) (P : Nat) (hP : 1 ≤ P)
    (vs : List Str) :
    ∃ store, pushAll (NewList listKey (P : Int)) emptyStore vs = .ok store ∧
      Length (NewList listKey (P : Int)) store = .ok ((vs.length : Nat) : Int) ∧
      getMeta (NewList listKey (P : Int)) store
        = .ok { lastPageNumber := ((ceilLP P vs.length : Nat) : Int),
                totalCount := ((vs.length : Nat) : Int) } ∧
      (∀ pg : Nat, 1 ≤ pg → pg < ceilLP P vs.length →
        ∃ page, GetPage (NewList listKey (P : Int)) store (pg : Int) = .ok page ∧
          page.length = P) ∧
      (1 ≤ ceilLP P vs.length →
        ∃ page, GetPage (NewList listKey (P : Int)) store
            ((ceilLP P vs.length : Nat) : Int) = .ok page ∧
          page.length = vs.length - (ceilLP P vs.length - 1) * P) := by
  have hps : (NewList listKey (P : Int)).pageSize = (P : Int) := by
    rw [NewList_pos listKey P hP]
  obtain ⟨store, hpush, hgood⟩ := pushAll_good (NewList listKey (P : Int)) P hP hps
    vs [] emptyStore (goodStore_empty _ P)
  rw [List.nil_append] at hgood
  refine ⟨store, hpush, ?_, hgood.1, ?_, ?_⟩
  · unfold Length
    simp only [hgood.1]
  · intro pg h1 h2
    refine ⟨pageSlice P vs pg, getPage_good _ P vs store hgood pg h1 (by omega), ?_⟩
    rw [pageSlice_length]
    have hlt : (ceilLP P vs.length - 1) * P < vs.length :=
      ceilLP_pred_mul_lt P vs.length hP (by
        rcases Nat.eq_zero_or_pos vs.length with h0 | h0
        · rw [h0, ceilLP_zero] at h2; omega
        · omega)
    have hmono : pg * P ≤ (ceilLP P vs.length - 1) * P :=
      Nat.mul_le_mul_right P (by omega)
    have hpm := pred_mul pg P
    have hpp : P ≤ pg * P := Nat.le_mul_of_pos_left P (by omega)
    omega
  · intro hL
    refine ⟨pageSlice P vs (ceilLP P vs.length),
      getPage_good _ P vs store hgood _ hL (Nat.le_refl _), ?_⟩
    rw [pageSlice_length]
    have hle := le_ceilLP_mul P vs.length hP
    have hpm := pred_mul (ceilLP P vs.length) P
    have hpp : P ≤ ceilLP P vs.length * P := Nat.le_mul_of_pos_left P (by omega)
    omega

/-- C2: on a list with page size `P ≥ 1` holding the pushed sequence `vs`,
`Range 0 (-1)` runs the visitor over exactly `vs` in order with indices
`0..N-1`, and `Range a b` for `0 ≤ a < b ≤ N` runs it over exactly the
elements at indices `a..b-1` in increasing index order (`visitList` applies
the visitor sequentially to the listed (index, value) pairs; the last
conjunct spells the pair list out as an explicit enumeration). Internally the
first page read starts at offset `a mod P` and every later page at offset 0,
which is what `rangeLoop_spec` establishes. The full-range conjunct assumes
`N ≥ 1`: for `N = 0` the code rejects the empty range with
`ErrIndexOutOfRange` before visiting anything (claim C4). -/
theorem C2_range_order (listKey : Str) (P : Nat) (hP : 1 ≤ P)
    (vs : List Str) :
    ∃ store, pushAll (NewList listKey (P : Int)) emptyStore vs = .ok store ∧
      (∀ fn, 1 ≤ vs.length →
        Range (NewList listKey (P : Int)) store 0 (-1) fn
          = visitList fn (visitPairs vs 0 0 vs.length)) ∧
      (∀ fn (a b : Nat), a < b → b ≤ vs.length →
        Range (NewList listKey (P : Int)) store (a : Int) (b : Int) fn
          = visitList fn (visitPairs vs a (a : Int) (b - a))) ∧
      (∀ (n i : Nat) (index : Int), visitPairs vs i index n
        = (List.range n).map
            (fun (j : Nat) => (index + (j : Int), vs.getD (i + j) []))) := by
  have hps : (NewList listKey (P : Int)).pageSize = (P : Int) := by
    rw [NewList_pos listKey P hP]
  obtain ⟨store, hpush, hgood⟩ := pushAll_good (NewList listKey (P : Int)) P hP hps
    vs [] emptyStore (goodStore_empty _ P)
  rw [List.nil_append] at hgood
  refine ⟨store, hpush, ?_, ?_, fun n i index => visitPairs_eq_map vs n i index⟩
  · intro fn hn
    exact Range_full _ P vs store hP hps hgood hn fn
  · intro fn a b hab hble
    exact Range_good _ P vs store hP hps hgood a b hab hble fn

/-- C3: `Get` and `GetLast` (modelled from the spec, since their definitions
are not among the provided sources — only `list_test.go` exercises them). On
a list built by pushing `vs`: `Get i` succeeds with the `i`-th pushed value
for `0 ≤ i < N`, fails with `IndexOutOfRange` for `i < 0` or `i ≥ N`,
`GetLast` equals `Get (N - 1)` (so in particular agrees with it when
`N > 0`), and `GetLast` on an empty list fails with `IndexOutOfRange`. -/
theorem C3_get_getlast (listKey : Str) (P : Nat) (hP : 1 ≤ P)
    (vs : List Str) :
    ∃ store, pushAll (NewList listKey (P : Int)) emptyStore vs = .ok store ∧
      (∀ i : Nat, i < vs.length →
        Get (NewList listKey (P : Int)) store (i : Int) = .ok (vs.getD i [])) ∧
      (∀ i : Int, i < 0 ∨ i ≥ ((vs.length : Nat) : Int) →
        Get (NewList listKey (P : Int)) store i = .error .indexOutOfRange) ∧
      GetLast (NewList listKey (P : Int)) store
        = Get (NewList listKey (P : Int)) store (((vs.length : Nat) : Int) - 1) ∧
      (vs.length = 0 →
        GetLast (NewList listKey (P : Int)) store = .error .indexOutOfRange) := by
  have hps : (NewList listKey (P : Int)).pageSize = (P : Int) := by
    rw [NewList_pos listKey P hP]
  obtain ⟨store, hpush, hgood⟩ := pushAll_good (NewList listKey (P : Int)) P hP hps
    vs [] emptyStore (goodStore_empty _ P)
  rw [List.nil_append] at hgood
  have hlast : GetLast (NewList listKey (P : Int)) store
      = Get (NewList listKey (P : Int)) store (((vs.length : Nat) : Int) - 1) :=
    GetLast_eq_get _ store _ hgood.1
  refine ⟨store, hpush, ?_, ?_, hlast, ?_⟩
  · intro i hi
    exact Get_good_ok _ P vs store hP hps hgood i hi
  · intro i hi
    exact Get_oob _ store _ hgood.1 i hi
  · intro h0
    rw [hlast]
    exact Get_oob _ store _ hgood.1 _ (by left; omega)

/-- C4: `Range start endIdx` first substitutes `endIdx = -1` by `totalCount`
and then fails with `IndexOutOfRange` — for every visitor, hence before any
visit can occur — exactly when `start < 0`, the substituted end exceeds
`totalCount`, or `start ≥ end`; otherwise it proceeds into the page walk. In
particular `Range 0 0` on an empty list is an `IndexOutOfRange` error, not an
empty-sequence success (see the witness). -/
theorem C4_range_validation (l : PagedList) (store : Store) (meta : listMeta)
    (hmeta : getMeta l store = .ok meta) (start endIdx : Int) :
    ((start < 0
        ∨ (if endIdx = -1 then meta.totalCount else endIdx) > meta.totalCount
        ∨ start ≥ (if endIdx = -1 then meta.totalCount else endIdx)) →
      ∀ fn, Range l store start endIdx fn = some Err.indexOutOfRange) ∧
    (¬(start < 0
        ∨ (if endIdx = -1 then meta.totalCount else endIdx) > meta.totalCount
        ∨ start ≥ (if endIdx = -1 then meta.totalCount else endIdx)) →
      ∀ fn, Range l store start endIdx fn
        = rangeLoop l store fn (if endIdx = -1 then meta.totalCount else endIdx)
            (Int.tdiv start l.pageSize + 1) (Int.tmod start l.pageSize).toNat
            start) := by
  constructor
  · intro hc fn
    unfold Range
    simp only [hmeta]
    rw [if_pos hc]
  · intro hc fn
    unfold Range
    simp only [hmeta]
    rw [if_neg hc]

/-- C5: `GetPage p` fails with the argument-validation error
(`"page number must be >= 1"`) whenever `p < 1`, and fails with
`ErrPageNotFound` whenever `p ≥ 1` but `p` exceeds the stored last page
number — in particular `GetPage 1` on an empty list, whose metadata has
`lastPageNumber = 0` (see the witness). -/
theorem C5_getpage_errors (l : PagedList) (store : Store) (pageNumber : Int) :
    (pageNumber < 1 →
      GetPage l store pageNumber = .error .invalidPageNumber) ∧
    (∀ meta, getMeta l store = .ok meta → 1 ≤ pageNumber →
      pageNumber > meta.lastPageNumber →
      GetPage l store pageNumber = .error .pageNotFound) := by
  constructor
  · intro h
    unfold GetPage
    rw [if_pos h]
  · intro meta hmeta h1 h2
    unfold GetPage
    rw [if_neg (by omega)]
    simp only [hmeta]
    rw [if_pos h2]

/-- C6: when the metadata decodes with `lastPageNumber ≥ p ≥ 1` but no page
record is stored under the key for page `p` (the key is unwritten, so
`GetState` yields zero-length bytes), `GetPage p` fails with the error raised
by unmarshalling the absent record — the code's realization of the spec's
`DataInconsistency` condition (metadata and physical page contents disagree) —
and in particular it does not fail with `ErrPageNotFound` and does not
succeed. -/
theorem C6_missing_page (l : PagedList) (store : Store) (meta : listMeta)
    (hmeta : getMeta l store = .ok meta) (pg : Int) (h1 : 1 ≤ pg)
    (h2 : pg ≤ meta.lastPageNumber)
    (hmiss : store (buildPageKey l pg) = .empty) :
    GetPage l store pg = .error (.unmarshalPageFailed (buildPageKey l pg)) ∧
    GetPage l store pg ≠ .error .pageNotFound ∧
    ∀ vsr, GetPage l store pg ≠ .ok vsr := by
  have hstep : GetPage l store pg
      = .error (.unmarshalPageFailed (buildPageKey l pg)) := by
    unfold GetPage
    rw [if_neg (by omega)]
    simp only [hmeta]
    rw [if_neg (by omega)]
    simp only [hmiss]
  exact ⟨hstep, by rw [hstep]; simp, fun vsr => by rw [hstep]; simp⟩

/-- C7: on a list holding the pushed sequence `vs`, for a valid range
`a < b ≤ N`: if the visitor answers `none` on the first `kk` visited elements
and `some e` on the next one, `Range` returns exactly `some e` — the stop
value propagated unchanged, with the traversal (a sequential `visitList` run)
never reaching any later element; and if the visitor answers `none` on every
element of the range, `Range` returns success (`none`: no store or decode
error occurs on a store built by pushes). -/
theorem C7_early_stop (listKey : Str) (P : Nat) (hP : 1 ≤ P) (vs : List Str)
    (a b : Nat) (hab : a < b) (hble : b ≤ vs.length) :
    ∃ store, pushAll (NewList listKey (P : Int)) emptyStore vs = .ok store ∧
      (∀ (fn : Int → Str → Option Err) (kk : Nat) (e : Err), kk < b - a →
        (∀ j : Nat, j < kk →
          fn (((a + j : Nat) : Int)) (vs.getD (a + j) []) = none) →
        fn (((a + kk : Nat) : Int)) (vs.getD (a + kk) []) = some e →
        Range (NewList listKey (P : Int)) store (a : Int) (b : Int) fn
          = some e) ∧
      (∀ (fn : Int → Str → Option Err),
        (∀ j : Nat, j < b - a →
          fn (((a + j : Nat) : Int)) (vs.getD (a + j) []) = none) →
        Range (NewList listKey (P : Int)) store (a : Int) (b : Int) fn
          = none) := by
  have hps : (NewList listKey (P : Int)).pageSize = (P : Int) := by
    rw [NewList_pos listKey P hP]
  obtain ⟨store, hpush, hgood⟩ := pushAll_good (NewList listKey (P : Int)) P hP hps
    vs [] emptyStore (goodStore_empty _ P)
  rw [List.nil_append] at hgood
  refine ⟨store, hpush, ?_, ?_⟩
  · intro fn kk e hkk hbefore hstop
    rw [Range_good _ P vs store hP hps hgood a b hab hble fn]
    refine visitList_visitPairs_stop fn vs e kk (b - a) a (a : Int) hkk ?_ ?_
    · intro j hj
      have := hbefore j hj
      rwa [Nat.cast_add] at this
    · rw [← Nat.cast_add]
      exact hstop
  · intro fn hall
    rw [Range_good _ P vs store hP hps hgood a b hab hble fn]
    refine visitList_visitPairs_none fn vs (b - a) a (a : Int) ?_
    intro j hj
    have := hall j hj
    rwa [Nat.cast_add] at this

/-- C8: the derived keys are collision-free. For page numbers `m, n ≥ 1`,
two page keys coincide only when both the list identities and the page
numbers coincide, and a metadata key never equals any page key — for any two
list identities. -/
theorem C8_keys_collision_free (l₁ l₂ : PagedList) (m n : Int) (hm : 1 ≤ m)
    (hn : 1 ≤ n) :
    (buildPageKey l₁ m = buildPageKey l₂ n → l₁.key = l₂.key ∧ m = n) ∧
    metaKey l₁ ≠ buildPageKey l₂ n :=
  ⟨fun h => buildPageKey_inj l₁ l₂ m n hm hn h,
    metaKey_ne_buildPageKey l₁ l₂ n hn⟩

/-- C9: `NewList` with a nonpositive page size does not fail — it returns a
list identical to one constructed with page size `DefaultPageSize = 10`, so
every subsequent operation (each a function of that value and the store)
behaves exactly as with page size 10. -/
theorem C9_default_pagesize (listKey : Str) (pageSize : Int)
    (hps : pageSize ≤ 0) :
    NewList listKey pageSize = NewList listKey 10 ∧
    (NewList listKey pageSize).pageSize = DefaultPageSize ∧
    DefaultPageSize = 10 := by
  unfold NewList DefaultPageSize
  rw [if_pos hps, if_neg (by omega)]
  exact ⟨rfl, rfl, rfl⟩

/-- C10: `Range`'s page walk terminates on every store contents. The loop is
a well-founded Lean function (defined by the strictly decreasing measure
`(metaLastPage + 1 - currentPage).toNat`, mirroring the source:
`currentPage` strictly increases each iteration), and the exit mechanism
claimed holds on arbitrary — including corrupted — stores: as soon as the
current page number exceeds the stored last page number while elements
remain, `GetPage` returns an error that the loop propagates immediately, so
a short or empty page that prevents the element index from advancing cannot
make the walk loop forever. -/
theorem C10_range_terminates (l : PagedList) (store : Store)
    (fn : Int → Str → Option Err) (endI currentPage : Int) (startPos : Nat)
    (index : Int) (h1 : 1 ≤ currentPage)
    (h2 : metaLastPage l store < currentPage) (hlt : index < endI) :
    ∃ e, rangeLoop l store fn endI currentPage startPos index = some e := by
  have hgp : ∃ e, GetPage l store currentPage = .error e := by
    unfold GetPage
    rw [if_neg (by omega)]
    cases hm : getMeta l store with
    | error e => exact ⟨e, rfl⟩
    | ok meta =>
      have hlast : metaLastPage l store = meta.lastPageNumber := by
        unfold metaLastPage
        rw [hm]
      refine ⟨.pageNotFound, ?_⟩
      have hgt : currentPage > meta.lastPageNumber := by omega
      exact if_pos hgt
  obtain ⟨e, he⟩ := hgp
  refine ⟨e, ?_⟩
  rw [rangeLoop, if_pos hlt]
  split
  · rename_i e' heq
    rw [he] at heq
    injection heq with h'
    rw [h']
  · rename_i values heq
    rw [he] at heq
    exact absurd heq (by simp)

/-! ### Witnesses: the claim theorems at concrete inputs (page size 3, the
spec's concrete scenario: push "a", "b", "c", "d"). -/

theorem C1_witness :
    (1 ≤ 3 ∧
      ∃ store, pushAll (NewList ['k'] ((3 : Nat) : Int)) emptyStore
          [['a'], ['b'], ['c'], ['d']] = .ok store ∧
        Length (NewList ['k'] ((3 : Nat) : Int)) store
          = .ok ((([['a'], ['b'], ['c'], ['d']] : List Str).length : Nat) : Int) ∧
        getMeta (NewList ['k'] ((3 : Nat) : Int)) store
          = .ok { lastPageNumber :=
                    ((ceilLP 3 ([['a'], ['b'], ['c'], ['d']] : List Str).length : Nat) : Int),
                  totalCount :=
                    ((([['a'], ['b'], ['c'], ['d']] : List Str).length : Nat) : Int) } ∧
        (∀ pg : Nat, 1 ≤ pg →
          pg < ceilLP 3 ([['a'], ['b'], ['c'], ['d']] : List Str).length →
          ∃ page, GetPage (NewList ['k'] ((3 : Nat) : Int)) store (pg : Int)
              = .ok page ∧ page.length = 3) ∧
        (1 ≤ ceilLP 3 ([['a'], ['b'], ['c'], ['d']] : List Str).length →
          ∃ page, GetPage (NewList ['k'] ((3 : Nat) : Int)) store
              ((ceilLP 3 ([['a'], ['b'], ['c'], ['d']] : List Str).length : Nat) : Int)
              = .ok page ∧
            page.length = ([['a'], ['b'], ['c'], ['d']] : List Str).length
              - (ceilLP 3 ([['a'], ['b'], ['c'], ['d']] : List Str).length - 1) * 3)) :=
  ⟨by decide, C1_push_invariant ['k'] 3 (by decide) [['a'], ['b'], ['c'], ['d']]⟩

theorem C2_witness :
    (1 ≤ 3 ∧
      ∃ store, pushAll (NewList ['k'] ((3 : Nat) : Int)) emptyStore
          [['a'], ['b'], ['c'], ['d']] = .ok store ∧
        (∀ fn, 1 ≤ ([['a'], ['b'], ['c'], ['d']] : List Str).length →
          Range (NewList ['k'] ((3 : Nat) : Int)) store 0 (-1) fn
            = visitList fn (visitPairs [['a'], ['b'], ['c'], ['d']] 0 0
                ([['a'], ['b'], ['c'], ['d']] : List Str).length)) ∧
        (∀ fn (a b : Nat), a < b →
          b ≤ ([['a'], ['b'], ['c'], ['d']] : List Str).length →
          Range (NewList ['k'] ((3 : Nat) : Int)) store (a : Int) (b : Int) fn
            = visitList fn (visitPairs [['a'], ['b'], ['c'], ['d']] a (a : Int) (b - a))) ∧
        (∀ (n i : Nat) (index : Int),
          visitPairs [['a'], ['b'], ['c'], ['d']] i index n
            = (List.range n).map (fun (j : Nat) =>
                (index + (j : Int),
                  ([['a'], ['b'], ['c'], ['d']] : List Str).getD (i + j) [])))) :=
  ⟨by decide, C2_range_order ['k'] 3 (by decide) [['a'], ['b'], ['c'], ['d']]⟩

theorem C3_witness :
    (1 ≤ 3 ∧
      ∃ store, pushAll (NewList ['k'] ((3 : Nat) : Int)) emptyStore
          [['a'], ['b'], ['c'], ['d']] = .ok store ∧
        (∀ i : Nat, i < ([['a'], ['b'], ['c'], ['d']] : List Str).length →
          Get (NewList ['k'] ((3 : Nat) : Int)) store (i : Int)
            = .ok (([['a'], ['b'], ['c'], ['d']] : List Str).getD i [])) ∧
        (∀ i : Int,
          i < 0 ∨ i ≥ ((([['a'], ['b'], ['c'], ['d']] : List Str).length : Nat) : Int) →
          Get (NewList ['k'] ((3 : Nat) : Int)) store i
            = .error .indexOutOfRange) ∧
        GetLast (NewList ['k'] ((3 : Nat) : Int)) store
          = Get (NewList ['k'] ((3 : Nat) : Int)) store
              (((([['a'], ['b'], ['c'], ['d']] : List Str).length : Nat) : Int) - 1) ∧
        (([['a'], ['b'], ['c'], ['d']] : List Str).length = 0 →
          GetLast (NewList ['k'] ((3 : Nat) : Int)) store
            = .error .indexOutOfRange)) :=
  ⟨by decide, C3_get_getlast ['k'] 3 (by decide) [['a'], ['b'], ['c'], ['d']]⟩

theorem C4_witness :
    getMeta (NewList ['k'] 10) emptyStore
      = .ok { lastPageNumber := 0, totalCount := 0 } ∧
    Range (NewList ['k'] 10) emptyStore 0 0 (fun _ _ => none)
      = some Err.indexOutOfRange :=
  ⟨rfl,
    (C4_range_validation (NewList ['k'] 10) emptyStore
        { lastPageNumber := 0, totalCount := 0 } rfl 0 0).1
      (by decide) (fun _ _ => none)⟩

theorem C5_witness :
    GetPage (NewList ['k'] 10) emptyStore 0 = .error .invalidPageNumber ∧
    GetPage (NewList ['k'] 10) emptyStore 1 = .error .pageNotFound :=
  ⟨(C5_getpage_errors (NewList ['k'] 10) emptyStore 0).1 (by decide),
    (C5_getpage_errors (NewList ['k'] 10) emptyStore 1).2
      { lastPageNumber := 0, totalCount := 0 } rfl (by decide) (by decide)⟩

theorem C6_witness :
    getMeta (NewList ['k'] ((3 : Nat) : Int))
        (putState emptyStore (metaKey (NewList ['k'] ((3 : Nat) : Int)))
          (.metaEnc { lastPageNumber := 1, totalCount := 1 }))
      = .ok { lastPageNumber := 1, totalCount := 1 } ∧
    putState emptyStore (metaKey (NewList ['k'] ((3 : Nat) : Int)))
        (.metaEnc { lastPageNumber := 1, totalCount := 1 })
        (buildPageKey (NewList ['k'] ((3 : Nat) : Int)) 1) = .empty ∧
    (GetPage (NewList ['k'] ((3 : Nat) : Int))
        (putState emptyStore (metaKey (NewList ['k'] ((3 : Nat) : Int)))
          (.metaEnc { lastPageNumber := 1, totalCount := 1 })) 1
      = .error (.unmarshalPageFailed
          (buildPageKey (NewList ['k'] ((3 : Nat) : Int)) 1)) ∧
    GetPage (NewList ['k'] ((3 : Nat) : Int))
        (putState emptyStore (metaKey (NewList ['k'] ((3 : Nat) : Int)))
          (.metaEnc { lastPageNumber := 1, totalCount := 1 })) 1
      ≠ .error .pageNotFound ∧
    ∀ vsr, GetPage (NewList ['k'] ((3 : Nat) : Int))
        (putState emptyStore (metaKey (NewList ['k'] ((3 : Nat) : Int)))
          (.metaEnc { lastPageNumber := 1, totalCount := 1 })) 1
      ≠ .ok vsr) :=
  ⟨rfl, by decide,
    C6_missing_page (NewList ['k'] ((3 : Nat) : Int))
      (putState emptyStore (metaKey (NewList ['k'] ((3 : Nat) : Int)))
        (.metaEnc { lastPageNumber := 1, totalCount := 1 }))
      { lastPageNumber := 1, totalCount := 1 } rfl 1 (by decide)
      (by decide) (by decide)⟩

theorem C7_witness :
    (1 ≤ 3 ∧ 1 < 3 ∧ 3 ≤ ([['a'], ['b'], ['c'], ['d']] : List Str).length ∧
      ∃ store, pushAll (NewList ['k'] ((3 : Nat) : Int)) emptyStore
          [['a'], ['b'], ['c'], ['d']] = .ok store ∧
        (∀ (fn : Int → Str → Option Err) (kk : Nat) (e : Err), kk < 3 - 1 →
          (∀ j : Nat, j < kk →
            fn (((1 + j : Nat) : Int))
              (([['a'], ['b'], ['c'], ['d']] : List Str).getD (1 + j) []) = none) →
          fn (((1 + kk : Nat) : Int))
              (([['a'], ['b'], ['c'], ['d']] : List Str).getD (1 + kk) []) = some e →
          Range (NewList ['k'] ((3 : Nat) : Int)) store ((1 : Nat) : Int)
              ((3 : Nat) : Int) fn = some e) ∧
        (∀ (fn : Int → Str → Option Err),
          (∀ j : Nat, j < 3 - 1 →
            fn (((1 + j : Nat) : Int))
              (([['a'], ['b'], ['c'], ['d']] : List Str).getD (1 + j) []) = none) →
          Range (NewList ['k'] ((3 : Nat) : Int)) store ((1 : Nat) : Int)
              ((3 : Nat) : Int) fn = none)) :=
  ⟨by decide, by decide, by decide,
    C7_early_stop ['k'] 3 (by decide) [['a'], ['b'], ['c'], ['d']] 1 3
      (by decide) (by decide)⟩

theorem C8_witness :
    ((1 : Int) ≤ 2 ∧ (1 : Int) ≤ 2 ∧
      (buildPageKey (NewList ['k'] 10) 2 = buildPageKey (NewList ['m'] 10) 2 →
        (NewList ['k'] 10).key = (NewList ['m'] 10).key ∧ (2 : Int) = 2) ∧
      metaKey (NewList ['k'] 10) ≠ buildPageKey (NewList ['m'] 10) 2) :=
  ⟨by decide, by decide,
    (C8_keys_collision_free (NewList ['k'] 10) (NewList ['m'] 10) 2 2
      (by decide) (by decide)).1,
    (C8_keys_collision_free (NewList ['k'] 10) (NewList ['m'] 10) 2 2
      (by decide) (by decide)).2⟩

theorem C9_witness :
    ((-5 : Int) ≤ 0 ∧
      NewList ['k'] (-5) = NewList ['k'] 10 ∧
      (NewList ['k'] (-5)).pageSize = DefaultPageSize ∧
      DefaultPageSize = 10) :=
  ⟨by decide, C9_default_pagesize ['k'] (-5) (by decide)⟩

theorem C10_witness :
    ((1 : Int) ≤ 1 ∧ metaLastPage (NewList ['k'] ((3 : Nat) : Int)) emptyStore < 1 ∧
      (0 : Int) < 5 ∧
      ∃ e, rangeLoop (NewList ['k'] ((3 : Nat) : Int)) emptyStore
          (fun _ _ => none) 5 1 0 0 = some e) :=
  ⟨by decide, by decide, by decide,
    C10_range_terminates (NewList ['k'] ((3 : Nat) : Int)) emptyStore
      (fun _ _ => none) 5 1 0 0 (by decide) (by decide) (by decide)⟩

end SmartPageList
